import Mathlib

/-
Verification development for the model training/validation orchestration core
of the trojanzoo repository (trojanzoo/models/model.py).

The Python code is shallowly embedded: tensors become lists of exact numbers
(integers or rationals), the filesystem becomes an association list from paths
to serialized state dicts, and the training loop becomes a fold over epoch
indices.  Each definition is translated from the source function it is named
after; spec-side definitions used for refinement comparisons are marked as
such in their doc comments.
-/

namespace TrojanModel

/-- Helper: mapping positional lookup over the index range of a list
reconstructs the list. -/
theorem map_range_getD {α : Type _} (l : List α) (d : α) :
    (List.range l.length).map (fun i => l.getD i d) = l := by
  apply List.ext_getElem
  · simp
  · intro i h1 h2
    simp only [List.getElem_map, List.getElem_range]
    exact List.getD_eq_getElem l d h2

/-! ## C1: `_Model.define_classifier` -/

/-- Torch layer kinds appearing in the classifier stack built by
`_Model.define_classifier` (nn.Linear, nn.ReLU, nn.Dropout, nn.Identity). -/
inductive Layer where
  | identity
  | linear (inFeatures outFeatures : Nat)
  | relu
  | dropout
deriving DecidableEq, Repr

/-- Result of `_Model.define_classifier`: either `nn.Identity()` or an
`nn.Sequential` of named layers built from an ordered list. -/
inductive Classifier where
  | identity
  | seq (layers : List (String × Layer))
deriving DecidableEq, Repr

/-- Named hidden blocks appended by the loop
`for i in range(self.fc_depth - 2)` in `define_classifier`: at iteration `i`
the code appends fc(i+2), relu(i+2), dropout(i+2), each of width fc_dim. -/
def hidden_blocks (fc_dim : Nat) : Nat → List (String × Layer)
  | 0 => []
  | n + 1 =>
      hidden_blocks fc_dim n ++
        [("fc" ++ toString (n + 2), Layer.linear fc_dim fc_dim),
         ("relu" ++ toString (n + 2), Layer.relu),
         ("dropout" ++ toString (n + 2), Layer.dropout)]

/-- Shallow embedding of `_Model.define_classifier` (model.py lines 65-91),
in the configuration used by the constructor where all optional arguments are
left as `None` and the `self` fields are consulted.  `nn.Linear (i, o)` is
recorded as `Layer.linear i o`. -/
def define_classifier (fc_depth : Int) (conv_dim fc_dim num_classes : Nat) :
    Classifier :=
  if fc_depth ≤ 0 then Classifier.identity
  else if fc_depth = 1 then
    Classifier.seq [("fc", Layer.linear conv_dim num_classes)]
  else
    Classifier.seq
      ([("fc1", Layer.linear conv_dim fc_dim), ("relu1", Layer.relu),
        ("dropout1", Layer.dropout)] ++
        hidden_blocks fc_dim (fc_depth - 2).toNat ++
        [("fc" ++ toString fc_depth, Layer.linear fc_dim num_classes)])

/-- Layers of a classifier with the nn.Sequential names dropped; the identity
classifier has no layers. -/
def classifier_layers : Classifier → List Layer
  | Classifier.identity => []
  | Classifier.seq l => l.map Prod.snd

/-- Shape of the weight matrix of a layer: torch `nn.Linear(inF, outF)` has
weight of shape `(outF, inF)`. -/
def Layer.weight_shape : Layer → Option (Nat × Nat)
  | Layer.linear i o => some (o, i)
  | _ => none

/-- Length of the bias vector of a layer: torch `nn.Linear(inF, outF)` has a
bias of length `outF`. -/
def Layer.bias_len : Layer → Option Nat
  | Layer.linear _ o => some o
  | _ => none

/-- Spec-side definition (from the claim wording): width of the i-th interface
in a stack of `d` linear layers, with `conv_dim` as first input width,
`fc_dim` for every hidden interface and `num_classes` as final output. -/
def spec_width (conv_dim fc_dim num_classes d i : Nat) : Nat :=
  if i = 0 then conv_dim else if i = d then num_classes else fc_dim

/-- Spec-side definition (from the claim wording): the first `m` linear layers
of the stack, each followed by ReLU and dropout. -/
def spec_mid (conv_dim fc_dim num_classes d : Nat) : Nat → List Layer
  | 0 => []
  | m + 1 =>
      spec_mid conv_dim fc_dim num_classes d m ++
        [Layer.linear (spec_width conv_dim fc_dim num_classes d m)
            (spec_width conv_dim fc_dim num_classes d (m + 1)),
         Layer.relu, Layer.dropout]

/-- Spec-side definition (from the claim wording): a stack of `d` linear
layers with ReLU and dropout between all but the last, first input width
`conv_dim`, hidden widths `fc_dim`, final output width `num_classes`. -/
def classifier_spec (conv_dim fc_dim num_classes d : Nat) : List Layer :=
  spec_mid conv_dim fc_dim num_classes d (d - 1) ++
    [Layer.linear (spec_width conv_dim fc_dim num_classes d (d - 1))
        (spec_width conv_dim fc_dim num_classes d d)]

theorem spec_mid_eq (conv_dim fc_dim num_classes d : Nat) (hd : 2 ≤ d) :
    ∀ m, m ≤ d - 2 →
      spec_mid conv_dim fc_dim num_classes d (m + 1) =
        [Layer.linear conv_dim fc_dim, Layer.relu, Layer.dropout] ++
          (hidden_blocks fc_dim m).map Prod.snd := by
  intro m
  induction m with
  | zero =>
      intro _
      have h1 : spec_width conv_dim fc_dim num_classes d 0 = conv_dim := by
        unfold spec_width
        rw [if_pos rfl]
      have h2 : spec_width conv_dim fc_dim num_classes d 1 = fc_dim := by
        unfold spec_width
        rw [if_neg (by omega), if_neg (by omega)]
      simp [spec_mid, hidden_blocks, h1, h2]
  | succ m ih =>
      intro hm
      have hmle : m ≤ d - 2 := by omega
      have hw1 : spec_width conv_dim fc_dim num_classes d (m + 1) = fc_dim := by
        unfold spec_width
        rw [if_neg (by omega), if_neg (by omega)]
      have hw2 : spec_width conv_dim fc_dim num_classes d (m + 2) = fc_dim := by
        unfold spec_width
        rw [if_neg (by omega), if_neg (by omega)]
      show spec_mid conv_dim fc_dim num_classes d (m + 1) ++
          [Layer.linear (spec_width conv_dim fc_dim num_classes d (m + 1))
              (spec_width conv_dim fc_dim num_classes d (m + 2)),
           Layer.relu, Layer.dropout] = _
      rw [ih hmle, hw1, hw2]
      simp [hidden_blocks, List.map_append]

/-- Claim C1: the classifier built by define_classifier follows the stated
policy: fc_depth at most 0 gives the identity; fc_depth = 1 gives a single
linear layer conv_dim to num_classes with weight shape (num_classes, conv_dim)
and bias length num_classes; fc_depth at least 2 gives a stack of fc_depth
linear layers with ReLU and dropout between all but the last, first input
width conv_dim, hidden widths fc_dim, final output width num_classes. -/
theorem c1_define_classifier_policy
    (fc_depth : Int) (conv_dim fc_dim num_classes : Nat) :
    (fc_depth ≤ 0 →
      define_classifier fc_depth conv_dim fc_dim num_classes =
        Classifier.identity) ∧
    (fc_depth = 1 →
      define_classifier fc_depth conv_dim fc_dim num_classes =
          Classifier.seq [("fc", Layer.linear conv_dim num_classes)] ∧
      (classifier_layers
          (define_classifier fc_depth conv_dim fc_dim num_classes)).map
          Layer.weight_shape = [some (num_classes, conv_dim)] ∧
      (classifier_layers
          (define_classifier fc_depth conv_dim fc_dim num_classes)).map
          Layer.bias_len = [some num_classes]) ∧
    (2 ≤ fc_depth →
      classifier_layers
          (define_classifier fc_depth conv_dim fc_dim num_classes) =
        classifier_spec conv_dim fc_dim num_classes fc_depth.toNat) := by
  refine ⟨?_, ?_, ?_⟩
  · intro h
    unfold define_classifier
    rw [if_pos h]
  · intro h
    subst h
    unfold define_classifier
    rw [if_neg (by omega), if_pos rfl]
    refine ⟨rfl, ?_, ?_⟩ <;> rfl
  · intro h
    have hd : 2 ≤ fc_depth.toNat := by omega
    have h2n : (fc_depth - 2).toNat = fc_depth.toNat - 2 := by omega
    unfold define_classifier
    rw [if_neg (by omega), if_neg (by omega)]
    unfold classifier_spec
    have hstep : fc_depth.toNat - 1 = (fc_depth.toNat - 2) + 1 := by omega
    rw [hstep, spec_mid_eq conv_dim fc_dim num_classes fc_depth.toNat hd
        (fc_depth.toNat - 2) (le_refl _)]
    have hwlast : spec_width conv_dim fc_dim num_classes fc_depth.toNat
        ((fc_depth.toNat - 2) + 1) = fc_dim := by
      unfold spec_width
      rw [if_neg (by omega), if_neg (by omega)]
    have hwout : spec_width conv_dim fc_dim num_classes fc_depth.toNat
        fc_depth.toNat = num_classes := by
      unfold spec_width
      rw [if_neg (by omega), if_pos rfl]
    rw [hwlast, hwout, h2n]
    simp [classifier_layers, List.map_append]

/-- Witness for C1: concrete instantiations discharging each hypothesis. -/
theorem c1_define_classifier_policy_witness :
    define_classifier 0 4 5 2 = Classifier.identity ∧
    define_classifier 1 4 5 2 =
        Classifier.seq [("fc", Layer.linear 4 2)] ∧
    classifier_layers (define_classifier 3 4 5 2) =
        classifier_spec 4 5 2 3 := by
  refine ⟨(c1_define_classifier_policy 0 4 5 2).1 (by decide),
    ((c1_define_classifier_policy 1 4 5 2).2.1 rfl).1,
    (c1_define_classifier_policy 3 4 5 2).2.2 (by decide)⟩

/-! ## C2: `Model._train` validation and checkpoint policy -/

/-- Decision from model.py lines 397-398: with a given validate_interval and
total epoch count, validation runs inside epoch `e` (0-based) exactly when
`validate_interval != 0` and `(e + 1) % validate_interval == 0 or
e == epoch - 1`. -/
def is_val_epoch (validate_interval epoch e : Nat) : Bool :=
  validate_interval != 0 &&
    ((e + 1) % validate_interval == 0 || e == epoch - 1)

/-- One epoch of the checkpoint bookkeeping in `Model._train` lines 397-408:
the state is (best accuracy, validation epochs so far, save epochs so far);
`acc e` is the top-1 accuracy returned by `validate_func` during epoch `e`.
The code updates the best and saves (when the save flag is set) exactly when
`cur_acc >= best_acc`. -/
def train_step (validate_interval epoch : Nat) (save : Bool) (acc : Nat → ℚ)
    (s : ℚ × List Nat × List Nat) (e : Nat) : ℚ × List Nat × List Nat :=
  if is_val_epoch validate_interval epoch e then
    let cur := acc e
    if s.1 ≤ cur then
      (cur, s.2.1 ++ [e], if save then s.2.2 ++ [e] else s.2.2)
    else
      (s.1, s.2.1 ++ [e], s.2.2)
  else s

/-- The `for _epoch in range(epoch)` loop of `Model._train` restricted to its
validation/checkpoint bookkeeping; `init` is the baseline accuracy established
by the initial validation pass (line 337). -/
def train_run (validate_interval epoch : Nat) (save : Bool) (init : ℚ)
    (acc : Nat → ℚ) : ℚ × List Nat × List Nat :=
  (List.range epoch).foldl (train_step validate_interval epoch save acc)
    (init, [], [])

/-- How the best accuracy evolves past one epoch: unchanged unless the epoch
validates, in which case it becomes the max of itself and the new accuracy. -/
def best_step (validate_interval epoch : Nat) (acc : Nat → ℚ) (b : ℚ)
    (j : Nat) : ℚ :=
  if is_val_epoch validate_interval epoch j then max b (acc j) else b

/-- Best accuracy on record just before epoch `e`: the maximum of the initial
baseline and the accuracies observed at earlier validation epochs. -/
def best_before (validate_interval epoch : Nat) (init : ℚ) (acc : Nat → ℚ)
    (e : Nat) : ℚ :=
  (List.range e).foldl (best_step validate_interval epoch acc) init

/-- Epochs at which a checkpoint is written, threading the running best
through the epoch list. -/
def saved_list (validate_interval epoch : Nat) (save : Bool) (acc : Nat → ℚ) :
    ℚ → List Nat → List Nat
  | _, [] => []
  | b, e :: es =>
      (if save && is_val_epoch validate_interval epoch e && decide (b ≤ acc e)
        then [e] else []) ++
        saved_list validate_interval epoch save acc
          (best_step validate_interval epoch acc b e) es

theorem train_foldl_eq (vi ep : Nat) (save : Bool) (acc : Nat → ℚ) :
    ∀ (l : List Nat) (b : ℚ) (vals saves : List Nat),
      l.foldl (train_step vi ep save acc) (b, vals, saves) =
        (l.foldl (best_step vi ep acc) b,
         vals ++ l.filter (is_val_epoch vi ep),
         saves ++ saved_list vi ep save acc b l) := by
  intro l
  induction l with
  | nil => intro b vals saves; simp [saved_list]
  | cons e es ih =>
      intro b vals saves
      by_cases hv : is_val_epoch vi ep e
      · by_cases hb : b ≤ acc e
        · have hmax : max b (acc e) = acc e := max_eq_right hb
          simp only [List.foldl_cons, train_step, hv, if_true, hb,
            List.filter_cons, saved_list, best_step]
          rw [ih]
          cases save <;>
            simp [hv, hb, hmax, List.append_assoc, List.filter_cons]
        · have hmax : max b (acc e) = b := max_eq_left (le_of_not_le hb)
          simp only [List.foldl_cons, train_step, hv, if_true, hb, if_false,
            List.filter_cons, saved_list, best_step]
          rw [ih]
          simp [hv, hb, hmax, List.append_assoc, List.filter_cons]
      · simp only [List.foldl_cons, train_step, hv, if_false, saved_list,
          best_step]
        rw [ih]
        simp [hv, List.filter_cons]

theorem saved_list_range (vi ep : Nat) (save : Bool) (acc : Nat → ℚ)
    (init : ℚ) : ∀ n,
      saved_list vi ep save acc init (List.range n) =
        (List.range n).filter
          (fun e => save && is_val_epoch vi ep e &&
            decide (best_before vi ep init acc e ≤ acc e)) := by
  have happ : ∀ (l1 l2 : List Nat) (b : ℚ),
      saved_list vi ep save acc b (l1 ++ l2) =
        saved_list vi ep save acc b l1 ++
          saved_list vi ep save acc (l1.foldl (best_step vi ep acc) b) l2 := by
    intro l1
    induction l1 with
    | nil => intro l2 b; simp [saved_list]
    | cons x xs ih =>
        intro l2 b
        simp only [List.cons_append, saved_list, List.foldl_cons,
          List.append_eq, ih, List.append_assoc]
  intro n
  induction n with
  | zero => simp [saved_list]
  | succ n ih =>
      rw [List.range_succ, happ, ih, List.filter_append]
      congr 1
      show saved_list vi ep save acc (best_before vi ep init acc n) [n] = _
      simp only [saved_list, List.append_nil, List.filter_cons, List.filter_nil]

/-- Claim C2: during `_train`, validation runs exactly at the epochs where
`validate_interval` divides the 1-based epoch index and unconditionally at the
final epoch (none at all when `validate_interval = 0`); the best accuracy is
the running maximum of the initial baseline and validation accuracies; a
checkpoint is written exactly once at each validation epoch whose accuracy is
at least the running best (so never when below the best), and only when the
save flag is set; with `validate_interval = 0` nothing is validated or
saved. -/
theorem c2_train_validation_checkpoint (vi epoch : Nat) (save : Bool)
    (init : ℚ) (acc : Nat → ℚ) :
    (train_run vi epoch save init acc).1 = best_before vi epoch init acc epoch ∧
    (train_run vi epoch save init acc).2.1 =
      (List.range epoch).filter (is_val_epoch vi epoch) ∧
    (train_run vi epoch save init acc).2.2 =
      (List.range epoch).filter
        (fun e => save && is_val_epoch vi epoch e &&
          decide (best_before vi epoch init acc e ≤ acc e)) ∧
    train_run 0 epoch save init acc = (init, [], []) := by
  have hmain := train_foldl_eq vi epoch save acc (List.range epoch) init [] []
  have hmain0 := train_foldl_eq 0 epoch save acc (List.range epoch) init [] []
  refine ⟨?_, ?_, ?_, ?_⟩
  · rw [train_run, hmain]
    rfl
  · rw [train_run, hmain]
    simp
  · rw [train_run, hmain, saved_list_range]
    simp
  · rw [train_run, hmain0]
    have hval : ∀ e, is_val_epoch 0 epoch e = false := by
      intro e
      simp [is_val_epoch]
    have hbs : ∀ (b : ℚ) (l : List Nat),
        l.foldl (best_step 0 epoch acc) b = b := by
      intro b l
      induction l generalizing b with
      | nil => rfl
      | cons x xs ih => simp [List.foldl_cons, best_step, hval, ih]
    have hsv : ∀ (b : ℚ) (l : List Nat),
        saved_list 0 epoch save acc b l = [] := by
      intro b l
      induction l generalizing b with
      | nil => rfl
      | cons x xs ih => simp [saved_list, hval, ih]
    simp [hbs, hsv, hval]

/-! ## C3: `Model.accuracy` top-k -/

/-- Logit score of class `i` in one output row. -/
def score (o : List Int) (i : Nat) : Int := o.getD i 0

/-- Class indices of one output row sorted by logit score descending: the
column order produced by `topk(..., largest=True, sorted=True)` and by
`argsort(descending=True)`. -/
def argsort_desc (o : List Int) : List Nat :=
  List.insertionSort (fun i j => score o j ≤ score o i) (List.range o.length)

/-- Number of examples whose label occurs among the top `k` predicted classes
(the value of `correct[:k].sum()` in `Model.accuracy`). -/
def correct_count (outputs : List (List Int)) (labels : List Nat) (k : Nat) :
    Nat :=
  ((outputs.zip labels).filter
    (fun p => decide (p.2 ∈ (argsort_desc p.1).take k))).length

/-- Shallow embedding of `Model.accuracy` (model.py lines 459-477) for one
requested `k`: returns 100 outright when `k > num_classes`, otherwise the
count of correct examples times `100 / batch_size`. -/
def accuracy (outputs : List (List Int)) (labels : List Nat)
    (num_classes k : Nat) : ℚ :=
  if num_classes < k then 100
  else (correct_count outputs labels k : ℚ) * (100 / (labels.length : ℚ))

theorem filter_length_mono {α : Type _} (p q : α → Bool) (l : List α)
    (h : ∀ a ∈ l, p a = true → q a = true) :
    (l.filter p).length ≤ (l.filter q).length := by
  induction l with
  | nil => simp
  | cons x xs ih =>
      simp only [List.filter_cons]
      have hxs := ih (fun a ha => h a (List.mem_cons_of_mem _ ha))
      by_cases hp : p x = true
      · rw [if_pos hp, if_pos (h x (List.mem_cons_self _ _) hp)]
        simpa using Nat.succ_le_succ hxs
      · rw [if_neg hp]
        by_cases hq : q x = true
        · rw [if_pos hq]
          exact Nat.le_succ_of_le hxs
        · rw [if_neg hq]
          exact hxs

theorem mem_take_mono {α : Type _} {a : α} {l : List α} {k m : Nat}
    (hkm : k ≤ m) (h : a ∈ l.take k) : a ∈ l.take m := by
  have heq : l.take k = (l.take m).take k := by
    rw [List.take_take, Nat.min_eq_left hkm]
  rw [heq] at h
  exact List.mem_of_mem_take h

/-- Claim C3: the accuracy function is monotone in `k`: the value at
`k = num_classes` is at least the value at any smaller `k`, and for every `k`
strictly greater than `num_classes` the returned value is exactly 100. -/
theorem c3_accuracy_topk_monotone (outputs : List (List Int))
    (labels : List Nat) (num_classes k : Nat) :
    (k ≤ num_classes →
      accuracy outputs labels num_classes k ≤
        accuracy outputs labels num_classes num_classes) ∧
    (num_classes < k → accuracy outputs labels num_classes k = 100) := by
  constructor
  · intro hk
    unfold accuracy
    rw [if_neg (by omega), if_neg (by omega)]
    apply mul_le_mul_of_nonneg_right
    · have hcount : correct_count outputs labels k ≤
          correct_count outputs labels num_classes := by
        apply filter_length_mono
        intro a _ ha
        simp only [decide_eq_true_eq] at ha ⊢
        exact mem_take_mono hk ha
      exact_mod_cast hcount
    · apply div_nonneg
      · norm_num
      · exact Nat.cast_nonneg _
  · intro h
    unfold accuracy
    rw [if_pos h]

/-- Witness for C3 at a concrete batch of two examples and two classes. -/
theorem c3_accuracy_topk_monotone_witness :
    accuracy [[3, 1], [0, 5]] [0, 1] 2 1 ≤
      accuracy [[3, 1], [0, 5]] [0, 1] 2 2 ∧
    accuracy [[3, 1], [0, 5]] [0, 1] 2 3 = 100 :=
  ⟨(c3_accuracy_topk_monotone [[3, 1], [0, 5]] [0, 1] 2 1).1 (by decide),
   (c3_accuracy_topk_monotone [[3, 1], [0, 5]] [0, 1] 2 3).2 (by decide)⟩

/-! ## C7: `Model.generate_target` -/

/-- Shallow embedding of `Model.generate_target` (model.py lines 612-622)
with `same=False`: for each example the classes are argsorted by logit
descending and the class at rank `idx` is returned. -/
def generate_target (outputs : List (List Int)) (idx : Nat) : List Nat :=
  outputs.map (fun o => (argsort_desc o).getD idx 0)

/-- Index of the maximal logit in one row (torch argmax): the first index
attaining the maximum. -/
def argmax_idx (o : List Int) : Nat :=
  (List.range o.length).foldl
    (fun best i => if score o best < score o i then i else best) 0

/-- Logit values of one row sorted descending. -/
def sorted_scores_desc (o : List Int) : List Int :=
  List.insertionSort (fun a b : Int => b ≤ a) o

theorem foldl_max_ge (o : List Int) (l : List Nat) :
    ∀ b : Nat,
      score o b ≤ score o
        (l.foldl (fun best i => if score o best < score o i then i else best)
          b) ∧
      ∀ j ∈ l, score o j ≤ score o
        (l.foldl (fun best i => if score o best < score o i then i else best)
          b) := by
  induction l with
  | nil =>
      intro b
      exact ⟨le_refl _, by simp⟩
  | cons x xs ih =>
      intro b
      simp only [List.foldl_cons]
      set c := if score o b < score o x then x else b with hc
      have hcb : score o b ≤ score o c := by
        by_cases hbx : score o b < score o x
        · rw [hc, if_pos hbx]
          exact le_of_lt hbx
        · rw [hc, if_neg hbx]
      have hcx : score o x ≤ score o c := by
        by_cases hbx : score o b < score o x
        · rw [hc, if_pos hbx]
        · rw [hc, if_neg hbx]
          exact le_of_not_lt hbx
      obtain ⟨h1, h2⟩ := ih c
      refine ⟨le_trans hcb h1, ?_⟩
      intro j hj
      rcases List.mem_cons.mp hj with rfl | hj2
      · exact le_trans hcx h1
      · exact h2 j hj2

theorem score_argmax_ge (o : List Int) (j : Nat) (hj : j < o.length) :
    score o j ≤ score o (argmax_idx o) := by
  unfold argmax_idx
  exact (foldl_max_ge o (List.range o.length) 0).2 j (List.mem_range.mpr hj)

theorem map_range_score (o : List Int) :
    (List.range o.length).map (score o) = o :=
  map_range_getD o 0

theorem argsort_sorted (o : List Int) :
    List.Sorted (fun i j => score o j ≤ score o i) (argsort_desc o) := by
  haveI : IsTotal Nat (fun i j => score o j ≤ score o i) :=
    ⟨fun i j => le_total (score o j) (score o i)⟩
  haveI : IsTrans Nat (fun i j => score o j ≤ score o i) :=
    ⟨fun i j k h1 h2 => le_trans h2 h1⟩
  exact List.sorted_insertionSort _ _

theorem argsort_map_score (o : List Int) :
    (argsort_desc o).map (score o) = sorted_scores_desc o := by
  haveI : IsTotal Int (fun a b : Int => b ≤ a) :=
    ⟨fun a b => le_total b a⟩
  haveI : IsTrans Int (fun a b : Int => b ≤ a) :=
    ⟨fun a b c h1 h2 => le_trans h2 h1⟩
  haveI : IsAntisymm Int (fun a b : Int => b ≤ a) :=
    ⟨fun a b h1 h2 => le_antisymm h2 h1⟩
  apply List.eq_of_perm_of_sorted (r := fun a b : Int => b ≤ a)
  · have hp1 : List.Perm ((argsort_desc o).map (score o)) o := by
      have h := (List.perm_insertionSort
        (fun i j => score o j ≤ score o i) (List.range o.length)).map (score o)
      rw [map_range_score o] at h
      exact h
    exact hp1.trans (List.perm_insertionSort (fun a b : Int => b ≤ a) o).symm
  · exact List.pairwise_map.mpr (argsort_sorted o)
  · exact List.sorted_insertionSort _ o

theorem argsort_length (o : List Int) :
    (argsort_desc o).length = o.length := by
  have hpl := (List.perm_insertionSort
    (fun i j => score o j ≤ score o i) (List.range o.length)).length_eq
  simp only [List.length_range] at hpl
  exact hpl

/-- Claim C7: for an example whose top-1 and top-2 logit scores differ,
`generate_target` with `idx = 1` returns a class different from the argmax of
the logits, and that class carries exactly the second-highest score. -/
theorem c7_generate_target_runner_up (outputs : List (List Int)) (i : Nat)
    (hi : i < outputs.length)
    (h2 : 2 ≤ (outputs.getD i []).length)
    (hne : (sorted_scores_desc (outputs.getD i [])).getD 0 0 ≠
      (sorted_scores_desc (outputs.getD i [])).getD 1 0) :
    (generate_target outputs 1).getD i 0 ≠ argmax_idx (outputs.getD i []) ∧
    score (outputs.getD i []) ((generate_target outputs 1).getD i 0) =
      (sorted_scores_desc (outputs.getD i [])).getD 1 0 := by
  set o := outputs.getD i [] with ho
  have hmaplen : i < (generate_target outputs 1).length := by
    simpa [generate_target] using hi
  have htarget : (generate_target outputs 1).getD i 0 =
      (argsort_desc o).getD 1 0 := by
    rw [List.getD_eq_getElem _ _ hmaplen]
    simp only [generate_target, List.getElem_map]
    rw [ho, List.getD_eq_getElem outputs [] hi]
  have hslen : (argsort_desc o).length = o.length := argsort_length o
  rcases hsl : argsort_desc o with _ | ⟨a, rest⟩
  · rw [hsl] at hslen
    simp at hslen
    omega
  rcases rest with _ | ⟨b, t⟩
  · rw [hsl] at hslen
    simp at hslen
    omega
  have hsorted := argsort_sorted o
  rw [hsl] at hsorted
  have hab : score o b ≤ score o a :=
    List.rel_of_sorted_cons hsorted b (List.mem_cons_self b t)
  have hss : sorted_scores_desc o = score o a :: score o b :: t.map (score o) := by
    rw [← argsort_map_score, hsl]
    simp
  have hne2 : score o b ≠ score o a := by
    rw [hss] at hne
    simp only [List.getD] at hne
    simp at hne
    exact fun h => hne (h.symm)
  have hblt : score o b < score o a := lt_of_le_of_ne hab hne2
  have hamem : a < o.length := by
    have : a ∈ argsort_desc o := by
      rw [hsl]
      exact List.mem_cons_self a _
    have hmem := this
    unfold argsort_desc at hmem
    rw [List.mem_insertionSort] at hmem
    exact List.mem_range.mp hmem
  have hargmax : score o a ≤ score o (argmax_idx o) :=
    score_argmax_ge o a hamem
  have htb : (argsort_desc o).getD 1 0 = b := by
    rw [hsl]
    rfl
  constructor
  · rw [htarget, htb]
    intro hcontra
    have : score o (argmax_idx o) = score o b := by rw [hcontra]
    rw [this] at hargmax
    exact absurd hargmax (not_le_of_lt hblt)
  · rw [htarget, htb, hss]
    rfl

/-- Witness for C7 at one example with three classes and logits 5, 9, 2. -/
theorem c7_generate_target_runner_up_witness :
    (generate_target [[5, 9, 2]] 1).getD 0 0 ≠ argmax_idx [5, 9, 2] ∧
    score [5, 9, 2] ((generate_target [[5, 9, 2]] 1).getD 0 0) =
      (sorted_scores_desc [5, 9, 2]).getD 1 0 :=
  c7_generate_target_runner_up [[5, 9, 2]] 0 (by decide) (by decide)
    (by decide)

/-! ## C4, C5, C8: `Model.load` and `Model.save` -/

/-- A serialized checkpoint or model state: parameter name to flat integer
tensor values. -/
abbrev StateDict := List (String × List Int)

/-- Association lookup over stored files, modelling `os.path.exists` followed
by `torch.load`. -/
def lookup_file : List (String × StateDict) → String → Option StateDict
  | [], _ => none
  | (k, v) :: fs, p => if k = p then some v else lookup_file fs p

/-- Errors a `Model.load` call can raise: the explicit `FileNotFoundError`
with its message, or an underlying deserialization error re-raised after the
attempted path is printed. -/
inductive LoadErr where
  | fileNotFound (msg : String)
  | wrapped (path : String)
deriving DecidableEq, Repr

/-- Parameter names of a state dict. -/
def dict_keys (d : StateDict) : List String := d.map Prod.fst

/-- Shallow embedding of `Model.load` (model.py lines 266-293) given an
already-resolved file path, with `features=True`: if the path exists the
checkpoint replaces the model state (strict `load_state_dict` requires
matching parameter names and otherwise raises, annotated with the path); if
the path does not exist, `FileNotFoundError` naming the path is raised and
the model state is returned untouched. -/
def load (files : List (String × StateDict)) (file_path : String)
    (st : StateDict) : StateDict × Option LoadErr :=
  match lookup_file files file_path with
  | some d =>
      if dict_keys d = dict_keys st then (d, none)
      else (st, some (LoadErr.wrapped file_path))
  | none =>
      (st, some (LoadErr.fileNotFound ("Model file not exist: " ++ file_path)))

/-- Default checkpoint path resolution shared by `Model.load` (line 276) and
`Model.save` (line 303): plain string concatenation
`folder_path + self.name + suffix + ".pth"`. -/
def resolve_path (folder_path name suffix : String) : String :=
  folder_path ++ name ++ suffix ++ ".pth"

/-- The filesystem: serialized checkpoint files plus existing directories. -/
structure FileSys where
  files : List (String × StateDict)
  dirs : List String
deriving Repr

/-- Embedding of `torch.save(_dict, file_path)`: store the state dict at the path. -/
def save_file (files : List (String × StateDict)) (file_path : String)
    (st : StateDict) : List (String × StateDict) :=
  (file_path, st) :: files

/-- Shallow embedding of `Model.save` (model.py lines 297-312) with no
explicit file path and `features=True`: resolves the default path, creates
the folder when missing (`os.makedirs`), and serializes the full state
dict. -/
def save (fsys : FileSys) (folder_path name suffix : String)
    (st : StateDict) : FileSys :=
  { files := save_file fsys.files (resolve_path folder_path name suffix) st,
    dirs := if folder_path ∈ fsys.dirs then fsys.dirs
            else folder_path :: fsys.dirs }

/-- Embedding of `Model.load` with no explicit file path: resolves the default path and
loads from it. -/
def load_default (fsys : FileSys) (folder_path name suffix : String)
    (st : StateDict) : StateDict × Option LoadErr :=
  load fsys.files (resolve_path folder_path name suffix) st

theorem load_save_file_eq (files : List (String × StateDict))
    (file_path : String) (st st2 : StateDict)
    (hkeys : dict_keys st2 = dict_keys st) :
    load (save_file files file_path st) file_path st2 = (st, none) := by
  show load ((file_path, st) :: files) file_path st2 = (st, none)
  have hl : lookup_file ((file_path, st) :: files) file_path = some st := by
    unfold lookup_file
    rw [if_pos rfl]
  unfold load
  rw [hl]
  dsimp only
  rw [if_pos hkeys.symm]

/-- Claim C4: loading from a path that does not exist returns a file-not-found
error whose message names the attempted path, and leaves the model state
unchanged. -/
theorem c4_load_missing_file (files : List (String × StateDict))
    (file_path : String) (st : StateDict)
    (h : lookup_file files file_path = none) :
    load files file_path st =
      (st,
        some (LoadErr.fileNotFound ("Model file not exist: " ++ file_path))) ∧
    ∃ pre suf : String,
      "Model file not exist: " ++ file_path = pre ++ file_path ++ suf := by
  constructor
  · unfold load
    rw [h]
  · exact ⟨"Model file not exist: ", "", by simp⟩

/-- Witness for C4 on an empty filesystem. -/
theorem c4_load_missing_file_witness :
    load [] "m.pth" [("w", [1])] =
      ([("w", [1])],
        some (LoadErr.fileNotFound ("Model file not exist: " ++ "m.pth"))) ∧
    ∃ pre suf : String,
      "Model file not exist: " ++ "m.pth" = pre ++ "m.pth" ++ suf :=
  c4_load_missing_file [] "m.pth" [("w", [1])] rfl

/-- Claim C5: save-then-load round trip: saving the full parameter state to a
path, then arbitrarily perturbing the parameters (any state with the same
parameter names), then loading from that path restores exactly the saved
values. -/
theorem c5_save_load_roundtrip (files : List (String × StateDict))
    (file_path : String) (st st2 : StateDict)
    (hkeys : dict_keys st2 = dict_keys st) :
    load (save_file files file_path st) file_path st2 = (st, none) :=
  load_save_file_eq files file_path st st2 hkeys

/-- Witness for C5 with a concrete perturbed state. -/
theorem c5_save_load_roundtrip_witness :
    load (save_file [] "d/m.pth" [("w", [3, 4])]) "d/m.pth"
        [("w", [9, 9])] = ([("w", [3, 4])], none) :=
  c5_save_load_roundtrip [] "d/m.pth" [("w", [3, 4])] [("w", [9, 9])] rfl

/-- Counterexample for C8 as stated: with folder path "dir" (no trailing
separator) the resolved path is "dirnet.pth", not the separator-joined
"dir/net.pth" the claim predicts. -/
theorem c8_path_resolution_counterexample :
    resolve_path "dir" "net" "" = "dirnet.pth" ∧
    resolve_path "dir" "net" "" ≠ "dir" ++ "/" ++ "net" ++ "" ++ ".pth" := by
  constructor
  · rfl
  · decide

/-- Claim C8 (amended): with no explicit file path, both save and load resolve
the checkpoint path by direct string concatenation
`folder_path + name + suffix + ".pth"` (no separator is inserted, so the
resolution only matches the separator-joined form when the folder path already
ends with one); save creates the folder when it does not exist, and save
followed by load through the default resolution restores the saved state. -/
theorem c8_default_path_resolution (fsys : FileSys)
    (folder_path name suffix : String) (st st2 : StateDict)
    (hkeys : dict_keys st2 = dict_keys st) :
    resolve_path folder_path name suffix =
      folder_path ++ name ++ suffix ++ ".pth" ∧
    folder_path ∈ (save fsys folder_path name suffix st).dirs ∧
    load_default (save fsys folder_path name suffix st) folder_path name
        suffix st2 = (st, none) := by
  refine ⟨rfl, ?_, ?_⟩
  · unfold save
    by_cases h : folder_path ∈ fsys.dirs
    · simp [h]
    · simp [h]
  · exact load_save_file_eq fsys.files (resolve_path folder_path name suffix)
      st st2 hkeys

/-- Witness for C8 (amended) on a concrete filesystem. -/
theorem c8_default_path_resolution_witness :
    resolve_path "data/model/" "net" "_adv" =
      "data/model/" ++ "net" ++ "_adv" ++ ".pth" ∧
    "data/model/" ∈
      (save ⟨[], []⟩ "data/model/" "net" "_adv" [("w", [1])]).dirs ∧
    load_default (save ⟨[], []⟩ "data/model/" "net" "_adv" [("w", [1])])
        "data/model/" "net" "_adv" [("w", [2])] = ([("w", [1])], none) :=
  c8_default_path_resolution ⟨[], []⟩ "data/model/" "net" "_adv"
    [("w", [1])] [("w", [2])] rfl

/-! ## C6: `Model.get_logits` with randomized smoothing -/

/-- A tensor as a flat list of exact rational values. -/
abbrev Tensor := List ℚ

/-- Modelled from the spec: `add_noise` (imported from `trojanzoo.utils`,
whose source is not part of this repository slice) draws a Gaussian-perturbed
copy of the input with standard deviation `std`; the unit Gaussian sample is
abstracted as an arbitrary noise vector scaled by `std`. -/
def add_noise (x : Tensor) (std : ℚ) (noise : Tensor) : Tensor :=
  (List.range x.length).map (fun i => x.getD i 0 + std * noise.getD i 0)

/-- Embedding of `torch.stack(_list).mean(dim=0)`: pointwise mean of a list of tensors. -/
def stack_mean (ts : List Tensor) : Tensor :=
  match ts with
  | [] => []
  | t :: _ =>
      (List.range t.length).map
        (fun i => (ts.map (fun u => u.getD i 0)).sum / (ts.length : ℚ))

/-- Shallow embedding of `Model.get_logits` (model.py lines 179-195): with
randomized smoothing, `rs_n` noisy forward passes are averaged (the k-th
Gaussian draw being `noise k`); without, a single plain forward pass. -/
def get_logits (net : Tensor → Tensor) (randomized_smooth : Bool)
    (rs_sigma : ℚ) (rs_n : Nat) (noise : Nat → Tensor) (input : Tensor) :
    Tensor :=
  if randomized_smooth then
    stack_mean
      ((List.range rs_n).map (fun k => net (add_noise input rs_sigma (noise k))))
  else net input

theorem add_noise_zero (x : Tensor) (noise : Tensor) :
    add_noise x 0 noise = x := by
  unfold add_noise
  simp only [zero_mul, add_zero]
  exact map_range_getD x 0

theorem stack_mean_single (t : Tensor) : stack_mean [t] = t := by
  unfold stack_mean
  simp only [List.map_cons, List.map_nil, List.sum_cons, List.sum_nil,
    add_zero, List.length_cons, List.length_nil, Nat.zero_add, Nat.cast_one,
    div_one]
  exact map_range_getD t 0

/-- Claim C6: `get_logits` with randomized smoothing enabled, `rs_n = 1` and
`rs_sigma = 0` returns the same logits as `get_logits` with randomized
smoothing disabled: a single plain forward pass of the deterministic
network. -/
theorem c6_smoothing_degenerate (net : Tensor → Tensor) (noise : Nat → Tensor)
    (input : Tensor) (sigma2 : ℚ) (n2 : Nat) :
    get_logits net true 0 1 noise input =
      get_logits net false sigma2 n2 noise input := by
  have hnoise : add_noise input 0 (noise 0) = input :=
    add_noise_zero input (noise 0)
  have hr : List.range 1 = [0] := rfl
  simp [get_logits, hr, hnoise, stack_mean_single]

/-! ## C9: gradient-activation and evaluation-mode invariant -/

/-- The gradient/mode state of the wrapped network: `requires_grad` per
parameter, and whether the network is in training mode. -/
structure NetState where
  active : List Bool
  training : Bool
deriving DecidableEq, Repr

/-- Embedding of `Model.activate_params` (model.py lines 490-495): set `requires_grad` to
False on every parameter, then re-enable it for each index in each passed
group. -/
def activate_params (groups : List (List Nat)) (s : NetState) : NetState :=
  { s with
    active := groups.foldl (fun l g => g.foldl (fun l2 i => l2.set i true) l)
      (s.active.map (fun _ => false)) }

/-- Embedding of `Model.train()`. -/
def set_train (s : NetState) : NetState := { s with training := true }

/-- Embedding of `Model.eval()`. -/
def set_eval (s : NetState) : NetState := { s with training := false }

/-- One epoch of `Model._train` (lines 343-408) restricted to the gradient
and mode state: the optional epoch hook is bracketed by deactivation and
re-activation; training mode plus activation for over the batch loop; then
evaluation mode and full deactivation (lines 381-382); then the optional
validation pass, whose default `_validate` calls `self.eval()` on entry. -/
def epoch_grad_step (hook : Bool) (params : List (List Nat))
    (validates : Bool) (s : NetState) : NetState :=
  let s1 := if hook then activate_params params (activate_params [] s) else s
  let s2 := activate_params params (set_train s1)
  let s3 := activate_params [] (set_eval s2)
  if validates then set_eval s3 else s3

/-- Embedding of the `Model._train` lifecycle on the gradient/mode state: the initial baseline
validation pass (line 337) calls `self.eval()`, then the epoch loop runs; the
final `self.zero_grad()` touches neither flags nor mode. -/
def train_grad_run (epoch : Nat) (hook : Bool) (params : List (List Nat))
    (validates : Nat → Bool) (s : NetState) : NetState :=
  (List.range epoch).foldl
    (fun st e => epoch_grad_step hook params (validates e) st) (set_eval s)

/-- End of `Model.__init__` (lines 165-175): `activate_params([])` right
after the raw network is built, then (after optional checkpoint loading and
device transfer, which do not touch the flags) `self.eval()`. -/
def init_end (s : NetState) : NetState := set_eval (activate_params [] s)

/-- Every parameter has gradient tracking disabled. -/
def all_inactive (s : NetState) : Prop := ∀ b ∈ s.active, b = false

theorem activate_nil_inactive (x : NetState) :
    all_inactive (activate_params [] x) := by
  intro b hb
  have hx : (activate_params [] x).active = x.active.map (fun _ => false) :=
    rfl
  rw [hx] at hb
  obtain ⟨a, -, rfl⟩ := List.mem_map.mp hb
  rfl

theorem epoch_grad_step_end (hook : Bool) (params : List (List Nat))
    (validates : Bool) (s : NetState) :
    all_inactive (epoch_grad_step hook params validates s) ∧
    (epoch_grad_step hook params validates s).training = false := by
  unfold epoch_grad_step
  by_cases hv : validates
  · rw [if_pos hv]
    exact ⟨activate_nil_inactive _, rfl⟩
  · rw [if_neg hv]
    exact ⟨activate_nil_inactive _, rfl⟩

/-- Counterexample for C9 as stated: `_train` invoked with `epoch = 0`
completes normally with the loop body never running, so a parameter that was
gradient-active at entry is still active when control returns to the
caller. -/
theorem c9_grad_invariant_counterexample :
    train_grad_run 0 false [] (fun _ => false)
        { active := [true], training := true } =
      { active := [true], training := false } ∧
    ¬ all_inactive { active := ([true] : List Bool), training := false } := by
  constructor
  · rfl
  · intro h
    exact Bool.noConfusion (h true (List.mem_singleton.mpr rfl))

/-- Claim C9 (amended): at the end of wrapper construction, and on normal
completion of `_train` provided at least one epoch runs, every parameter of
the network has gradient tracking disabled and the network is in evaluation
mode.  (With `epoch = 0` the loop body never runs and gradient flags active
at entry survive, so the `_train` part needs `1 ≤ epoch`.) -/
theorem c9_grad_invariant (s : NetState) (epoch : Nat) (hook : Bool)
    (params : List (List Nat)) (validates : Nat → Bool) :
    all_inactive (init_end s) ∧ (init_end s).training = false ∧
    (1 ≤ epoch →
      all_inactive (train_grad_run epoch hook params validates s) ∧
      (train_grad_run epoch hook params validates s).training = false) := by
  refine ⟨activate_nil_inactive _, rfl, ?_⟩
  intro he
  obtain ⟨m, rfl⟩ : ∃ m, epoch = m + 1 := ⟨epoch - 1, by omega⟩
  unfold train_grad_run
  rw [List.range_succ, List.foldl_append]
  simp only [List.foldl_cons, List.foldl_nil]
  exact epoch_grad_step_end hook params (validates m) _

/-- Witness for C9 (amended) with one epoch, a hook, one active parameter
group and periodic validation. -/
theorem c9_grad_invariant_witness :
    all_inactive (init_end { active := [true, true], training := true }) ∧
    (init_end { active := [true, true], training := true }).training =
      false ∧
    (all_inactive (train_grad_run 1 true [[0]] (fun _ => true)
        { active := [true, true], training := true }) ∧
      (train_grad_run 1 true [[0]] (fun _ => true)
        { active := [true, true], training := true }).training = false) :=
  have h := c9_grad_invariant { active := [true, true], training := true }
    1 true [[0]] (fun _ => true)
  ⟨h.1, h.2.1, h.2.2 (by decide)⟩

/-! ## C10: `loss_weights` sentinel with no dataset -/

/-- Python value held by the `loss_weights` attribute: the default string
value "dataset", Python None, or a weight tensor. -/
inductive LossWeights where
  | sentinel
  | pyNone
  | tensor (w : List ℚ)
deriving DecidableEq, Repr

/-- The interface of the dataset collaborator used during construction. -/
structure DatasetObj where
  num_classes : Nat
  loss_weights : LossWeights

/-- Resolution of `loss_weights` in `Model.__init__` (lines 144-155): only
when a dataset is present is the sentinel string replaced by the dataset
value; `self.loss_weights` stores the result. -/
def resolve_loss_weights (dataset : Option DatasetObj)
    (loss_weights : LossWeights) : LossWeights :=
  match dataset with
  | some d =>
      if loss_weights = LossWeights.sentinel then d.loss_weights
      else loss_weights
  | none => loss_weights

/-- The weight actually passed to `nn.CrossEntropyLoss` by
`Model.define_criterion` (lines 250-253): a string value becomes None. -/
def criterion_weight : LossWeights → Option (List ℚ)
  | LossWeights.sentinel => none
  | LossWeights.pyNone => none
  | LossWeights.tensor w => some w

/-- Python error raised inside the criterion closure. -/
inductive PyErr where
  | attributeError
deriving DecidableEq, Repr

/-- The criterion closure built by `define_criterion` (lines 255-258): when
the stored `self.loss_weights` is not None, the output tensor is first moved
to `self.loss_weights.device`; on the sentinel string this attribute access
raises AttributeError before any loss value is produced.  `entropy_fn`
abstracts the numeric `nn.CrossEntropyLoss(weight)` kernel applied to the
weight fixed at construction time. -/
def loss_fn (stored : LossWeights)
    (entropy_fn : Option (List ℚ) → List ℚ → Nat → ℚ)
    (output : List ℚ) (label : Nat) : Except PyErr ℚ :=
  match stored with
  | LossWeights.sentinel => Except.error PyErr.attributeError
  | LossWeights.pyNone =>
      Except.ok (entropy_fn (criterion_weight stored) output label)
  | LossWeights.tensor w =>
      Except.ok (entropy_fn (criterion_weight (LossWeights.tensor w)) output
        label)

/-- Claim C10: constructing the wrapper with no dataset and `loss_weights`
left at its default keeps the sentinel string "dataset" in the attribute
rather than resolving it to None, and every subsequent call of the loss
function on any output and label raises an error instead of returning a loss
value. -/
theorem c10_sentinel_loss_weights :
    resolve_loss_weights none LossWeights.sentinel = LossWeights.sentinel ∧
    ∀ (entropy_fn : Option (List ℚ) → List ℚ → Nat → ℚ)
      (output : List ℚ) (label : Nat),
      loss_fn (resolve_loss_weights none LossWeights.sentinel) entropy_fn
          output label = Except.error PyErr.attributeError := by
  exact ⟨rfl, fun entropy_fn output label => rfl⟩

end TrojanModel
